import Mathlib

/-!
Verification development for the ViralCutsAI clip-processing pipeline.

The definitions below are a shallow embedding of the TypeScript source:

* `src/server/gemini.ts` — segment validation and uniform fallback
  (`analyzeVideoForCuts`, post-oracle part);
* `src/server/video-processor.ts` — `cutVideo` and `addSubtitlesToVideo`;
* `src/unnamed/part_005` (the `subtitles` module) — `sanitizeSrt`,
  `transcribeWordsWhisperCpp`, `buildAssFromWords`.

JavaScript numbers are modelled as `ℚ`, strings as `String` / `List Char`,
the filesystem as a list of existing paths, and each external-process
invocation as an oracle parameter describing its outcome.  The specific
regular expressions used by `sanitizeSrt` are embedded as dedicated
character-list scanners that reproduce the JS `RegExp.prototype[Symbol.replace]`
semantics (left-to-right global scan, greedy/lazy quantifiers, lookahead)
for exactly those patterns.
-/

/-- Whitespace class of JavaScript: the characters matched by `\s` in a
`RegExp` and stripped by `String.prototype.trim`. -/
def isJsSpace (c : Char) : Bool :=
  c = ' ' || c = '\t' || c = '\n' || c = '\x0b' || c = '\x0c' || c = '\r' ||
  c = '\u00A0' || c = '\u1680' || ('\u2000' ≤ c && c ≤ '\u200A') ||
  c = '\u2028' || c = '\u2029' || c = '\u202F' || c = '\u205F' ||
  c = '\u3000' || c = '\uFEFF'

/-- Embedding of `String.prototype.trim` on character lists. -/
def jsTrimL (l : List Char) : List Char :=
  ((l.dropWhile isJsSpace).reverse.dropWhile isJsSpace).reverse

/-- Embedding of `String.prototype.trim`. -/
def jsTrim (s : String) : String := (jsTrimL s.toList).asString

/-- Generic left-to-right global-replace scanner: at each position try the
`step` matcher; on a match emit its replacement and resume after the match,
otherwise copy one character.  `fuel` bounds recursion; every `step` used in
this file consumes at least one character, so `fuel = length` is exact.
This is the semantics of `String.prototype.replace` with a `/g` regexp. -/
def scanFuel (step : List Char → Option (List Char × List Char)) :
    Nat → List Char → List Char
  | _, [] => []
  | 0, l => l
  | n + 1, c :: rest =>
    match step (c :: rest) with
    | some (repl, after) => repl ++ scanFuel step n after
    | none => c :: scanFuel step n rest

/-- Run a global-replace scanner over a whole character list. -/
def scanReplace (step : List Char → Option (List Char × List Char))
    (l : List Char) : List Char :=
  scanFuel step l.length l

/-- Embedding of `srt.replace(/\r\n/g, "\n")`. -/
def replCRLF : List Char → List Char
  | '\r' :: '\n' :: rest => '\n' :: replCRLF rest
  | c :: rest => c :: replCRLF rest
  | [] => []

/-- Embedding of `t.replace(/–>|—>|->/g, "-->")`: every en-dash, em-dash or
plain single-dash arrow is rewritten to the canonical separator.  Note the
third alternative also matches the final two characters of a canonical
`-->`, which therefore becomes `--->`. -/
def replArrows : List Char → List Char
  | '–' :: '>' :: rest => '-' :: '-' :: '>' :: replArrows rest
  | '—' :: '>' :: rest => '-' :: '-' :: '>' :: replArrows rest
  | '-' :: '>' :: rest => '-' :: '-' :: '>' :: replArrows rest
  | c :: rest => c :: replArrows rest
  | [] => []

/-- Embedding of `m.replace(/```/g, "")`: delete every triple-backtick. -/
def stripTicks : List Char → List Char
  | '`' :: '`' :: '`' :: rest => stripTicks rest
  | c :: rest => c :: stripTicks rest
  | [] => []

/-- Find the first triple-backtick in `l`; return the content before it and
the remainder after it.  This realises the lazy `[\s\S]*?` of the
code-fence regexp. -/
def findFenceClose : List Char → Option (List Char × List Char)
  | '`' :: '`' :: '`' :: rest => some ([], rest)
  | c :: rest => (findFenceClose rest).map (fun pr => (c :: pr.1, pr.2))
  | [] => none

/-- Step matcher for `t.replace(/```[\s\S]*?```/g, m => m.replace(/```/g, "").trim())`. -/
def fencePairStep (l : List Char) : Option (List Char × List Char) :=
  match l with
  | '`' :: '`' :: '`' :: rest =>
    match findFenceClose rest with
    | some (content, after) =>
      some (jsTrimL (stripTicks ((['`', '`', '`'] ++ content) ++ ['`', '`', '`'])), after)
    | none => none
  | _ => none

/-- Embedding of the code-fence pair replacement. -/
def replFencePairs (l : List Char) : List Char := scanReplace fencePairStep l

/-- Trailing `\s*$` of the fence-line regexp (with the `m` flag): greedily
consume whitespace, backtracking so that the position after the match is the
end of the text or immediately before a newline.  `afterTicks` is the text
following the matched triple-backtick; returns `(consumed, rest)`. -/
def altTwoTail (afterTicks : List Char) : Option (List Char × List Char) :=
  let run := afterTicks.takeWhile isJsSpace
  let rest := afterTicks.dropWhile isJsSpace
  if rest.isEmpty then some (run, [])
  else
    match run.reverse.findIdx? (fun c => c = '\n') with
    | some j =>
      let k := run.length - 1 - j
      some (run.take k, run.drop k ++ rest)
    | none => none

/-- Step matcher for `t.replace(/^```.*$|^\s*```\s*$/gm, "")`, attempted only
at line-start positions.  Returns `(consumed, rest)`; the replacement is
always empty.  The first alternative eats a line that starts with a fence;
the second eats whitespace (possibly spanning newlines), a fence, and
trailing whitespace up to a line end. -/
def fenceLineStep (l : List Char) : Option (List Char × List Char) :=
  match l with
  | '`' :: '`' :: '`' :: rest =>
    some (['`', '`', '`'] ++ rest.takeWhile (fun c => c ≠ '\n'),
      rest.dropWhile (fun c => c ≠ '\n'))
  | _ =>
    let run := l.takeWhile isJsSpace
    let rest := l.dropWhile isJsSpace
    match rest with
    | '`' :: '`' :: '`' :: tail =>
      match altTwoTail tail with
      | some (consumed, after) =>
        some (run ++ ['`', '`', '`'] ++ consumed, after)
      | none => none
    | _ => none

/-- True when the last character of `l` is a newline. -/
def lastCharIsNl (l : List Char) : Bool :=
  match l.getLast? with
  | some '\n' => true
  | _ => false

/-- Scanner for the fence-line replacement: `atStart` tracks whether the
current position is a line start (where the `^` anchor can match). -/
def fenceLineScan : Nat → Bool → List Char → List Char
  | _, _, [] => []
  | 0, _, l => l
  | n + 1, atStart, c :: rest =>
    if atStart then
      match fenceLineStep (c :: rest) with
      | some (consumed, after) => fenceLineScan n (lastCharIsNl consumed) after
      | none => c :: fenceLineScan n (c = '\n') rest
    else c :: fenceLineScan n (c = '\n') rest

/-- Embedding of `t.replace(/^```.*$|^\s*```\s*$/gm, "")`. -/
def replFenceLines (l : List Char) : List Char := fenceLineScan l.length true l

/-- Tail `:\d{2}:\d{2}` of the timecode pattern. -/
def matchHMSTail : List Char → Option (List Char × List Char)
  | ':' :: c :: d :: ':' :: e :: f :: rest =>
    if c.isDigit && d.isDigit && e.isDigit && f.isDigit then
      some ([':', c, d, ':', e, f], rest)
    else none
  | _ => none

/-- Matcher for `\d{1,2}:\d{2}:\d{2}`.  The greedy two-digit first field is
tried first; when the second character is a digit the one-digit backtrack
can never succeed (the tail would have to start with `:` at that digit), so
a single greedy attempt is faithful to the regexp. -/
def matchHMS (l : List Char) : Option (List Char × List Char) :=
  match l with
  | a :: rest =>
    if a.isDigit then
      match rest with
      | b :: rest2 =>
        if b.isDigit then
          (matchHMSTail rest2).map (fun pr => (a :: b :: pr.1, pr.2))
        else (matchHMSTail rest).map (fun pr => (a :: pr.1, pr.2))
      | [] => none
    else none
  | [] => none

/-- Greedy `\d{1,3}` matcher. -/
def msDigits : List Char → Option (List Char × List Char)
  | a :: rest =>
    if a.isDigit then
      match rest with
      | b :: rest2 =>
        if b.isDigit then
          match rest2 with
          | c :: rest3 =>
            if c.isDigit then some ([a, b, c], rest3) else some ([a, b], rest2)
          | [] => some ([a, b], [])
        else some ([a], rest)
      | [] => some ([a], [])
    else none
  | [] => none

/-- Embedding of `ms.padEnd(3, '0')`. -/
def padEnd3 (l : List Char) : List Char := l ++ List.replicate (3 - l.length) '0'

/-- Step matcher for
`t.replace(/(\d{1,2}:\d{2}:\d{2})\.(\d{1,3})/g, (m, hms, ms) => hms + "," + ms.padEnd(3,'0'))`. -/
def dotStep (l : List Char) : Option (List Char × List Char) :=
  match matchHMS l with
  | some (hms, rest) =>
    match rest with
    | '.' :: rest2 =>
      match msDigits rest2 with
      | some (ms, rest3) => some (hms ++ ',' :: padEnd3 ms, rest3)
      | none => none
    | _ => none
  | none => none

/-- Embedding of the dot-to-comma millisecond replacement. -/
def replDotMs (l : List Char) : List Char := scanReplace dotStep l

/-- Matcher for `\s*-->\s*`.  Both whitespace runs are forced to be the
maximal ones because the characters that follow them in the enclosing
patterns (`-` and a digit) are never whitespace. -/
def arrowBetween (l : List Char) : Option (List Char × List Char) :=
  let ws1 := l.takeWhile isJsSpace
  match l.dropWhile isJsSpace with
  | '-' :: '-' :: '>' :: rest =>
    let ws2 := rest.takeWhile isJsSpace
    some (ws1 ++ '-' :: '-' :: '>' :: ws2, rest.dropWhile isJsSpace)
  | _ => none

/-- Step matcher for
`t.replace(/(\d{1,2}:\d{2}:\d{2})(\s*-->\s*)(\d{1,2}:\d{2}:\d{2})(?![,\.])/g, "$1,000$2$3,000")`:
append `,000` to both bare timecodes of a range.  The negative lookahead
rejects a second timecode already followed by `,` or `.`. -/
def noMsStep (l : List Char) : Option (List Char × List Char) :=
  match matchHMS l with
  | some (t1, rest1) =>
    match arrowBetween rest1 with
    | some (sep, rest2) =>
      match matchHMS rest2 with
      | some (t2, rest3) =>
        match rest3 with
        | c :: _ =>
          if c = ',' || c = '.' then none
          else some (t1 ++ [',', '0', '0', '0'] ++ sep ++ t2 ++ [',', '0', '0', '0'], rest3)
        | [] => some (t1 ++ [',', '0', '0', '0'] ++ sep ++ t2 ++ [',', '0', '0', '0'], [])
      | none => none
    | none => none
  | none => none

/-- Embedding of the missing-millisecond padding replacement. -/
def replNoMs (l : List Char) : List Char := scanReplace noMsStep l

/-- Matcher for a full `\d{1,2}:\d{2}:\d{2},\d{3}` timecode; returns the
remainder on success. -/
def matchFullTime (l : List Char) : Option (List Char) :=
  match matchHMS l with
  | some (_, rest) =>
    match rest with
    | ',' :: a :: b :: c :: rest2 =>
      if a.isDigit && b.isDigit && c.isDigit then some rest2 else none
    | _ => none
  | none => none

/-- Does a full time range `T,mmm --> T,mmm` match at this position? -/
def rangeAt (l : List Char) : Bool :=
  match matchFullTime l with
  | some rest =>
    match arrowBetween rest with
    | some (_, rest2) => (matchFullTime rest2).isSome
    | none => false
  | none => false

/-- Embedding of `/\d{1,2}:\d{2}:\d{2},\d{3}\s*-->\s*\d{1,2}:\d{2}:\d{2},\d{3}/.test(t)`. -/
def containsRangeL : List Char → Bool
  | [] => false
  | c :: rest => rangeAt (c :: rest) || containsRangeL rest

/-- Step matcher for the block separator `/\n\s*\n/` used by
`t.split(/\n\s*\n/)`: a newline, greedy whitespace, then a newline. -/
def blockSplitStep (l : List Char) : Option (List Char × List Char) :=
  match l with
  | '\n' :: rest =>
    let run := rest.takeWhile isJsSpace
    let rest2 := rest.dropWhile isJsSpace
    match run.reverse.findIdx? (fun c => c = '\n') with
    | some j =>
      let k := run.length - 1 - j
      some ('\n' :: run.take k ++ ['\n'], run.drop (k + 1) ++ rest2)
    | none => none
  | _ => none

/-- Split on `/\n\s*\n/`, JS `String.prototype.split` semantics. -/
def splitBlocksFuel : Nat → List Char → List (List Char)
  | _, [] => [[]]
  | 0, l => [l]
  | n + 1, c :: rest =>
    match blockSplitStep (c :: rest) with
    | some (_, after) => [] :: splitBlocksFuel n after
    | none =>
      match splitBlocksFuel n rest with
      | p :: ps => (c :: p) :: ps
      | [] => [[c]]

/-- Embedding of `t.split(/\n\s*\n/)`. -/
def splitBlocks (l : List Char) : List (List Char) := splitBlocksFuel l.length l

/-- Embedding of `p.split(/\n/)`. -/
def splitNl : List Char → List (List Char)
  | [] => [[]]
  | '\n' :: rest => [] :: splitNl rest
  | c :: rest =>
    match splitNl rest with
    | p :: ps => (c :: p) :: ps
    | [] => [[c]]

/-- Embedding of `/^\d+$/.test(line)`. -/
def isAllDigits (l : List Char) : Bool := !l.isEmpty && l.all (fun c => c.isDigit)

/-- Join lines with a newline, the semantics of `Array.prototype.join("\n")`. -/
def joinNl : List (List Char) → List Char
  | [] => []
  | [x] => x
  | x :: xs => x ++ '\n' :: joinNl xs

/-- First line containing a time range, together with the lines after it
(`lines.findIndex(...)` followed by `lines.slice(rangeIdx + 1)`). -/
def findRangeSplit : List (List Char) → Option (List Char × List (List Char))
  | [] => none
  | l :: ls => if containsRangeL l then some (l, ls) else findRangeSplit ls

/-- Per-block part of the `sanitizeSrt` reconstruction loop: drop a leading
numeric index line, locate the first range line, and take the trimmed text
after it; blocks without a range line or with empty text are dropped. -/
def processBlock (p : List Char) : Option (List Char × List Char) :=
  let lines0 := (splitNl p).filter (fun l => !l.isEmpty)
  let lines :=
    match lines0 with
    | first :: rest => if isAllDigits first then rest else lines0
    | [] => lines0
  match findRangeSplit lines with
  | none => none
  | some (range, after) =>
    let text := jsTrimL (joinNl after)
    if text.isEmpty then none else some (range, text)

/-- Reconstruction loop of `sanitizeSrt`: emit `idx`, range, text and a
blank entry per kept block, re-indexing sequentially from `idx`. -/
def rebuildOut : Nat → List (List Char) → List (List Char)
  | _, [] => []
  | idx, p :: ps =>
    match processBlock p with
    | none => rebuildOut idx ps
    | some (range, text) =>
      (Nat.repr idx).toList :: range :: text :: [] :: rebuildOut (idx + 1) ps

/-- Normalisation phase of `sanitizeSrt` (source lines 96-104 of the
`subtitles` module): CRLF fold and trim, code-fence stripping, arrow
normalisation, dot-millisecond and missing-millisecond repair. -/
def normalizeSrtChars (l : List Char) : List Char :=
  replNoMs (replDotMs (replArrows (replFenceLines (replFencePairs (jsTrimL (replCRLF l))))))

/-- Embedding of `sanitizeSrt` from the `subtitles` module on character
lists: normalise, abort with the empty string when no time range survives,
then re-split into blocks and re-index them from 1. -/
def sanitizeSrtL (l : List Char) : List Char :=
  if l.isEmpty then []
  else
    let t := normalizeSrtChars l
    if !containsRangeL t then []
    else
      let parts := ((splitBlocks t).map jsTrimL).filter (fun p => !p.isEmpty)
      let final := jsTrimL (joinNl (rebuildOut 1 parts))
      if final.isEmpty then [] else final ++ ['\n']

/-- Embedding of `sanitizeSrt`. -/
def sanitizeSrt (s : String) : String := (sanitizeSrtL s.toList).asString

/-- WordTiming record of the `subtitles` module:
`{ start: number, end: number, text: string }`. -/
structure WordTiming where
  start : ℚ
  «end» : ℚ
  text : String
deriving DecidableEq

/-- Synthetic even-spacing loop of `transcribeWordsWhisperCpp`: starting at
`t`, each word occupies one `slot`, and `t` advances by `slot` per word. -/
def synthWords (t slot : ℚ) : List String → List WordTiming
  | [] => []
  | p :: ps => ⟨t, t + slot, p⟩ :: synthWords (t + slot) slot ps

/-- Accumulator pass for `txt.split(/\s+/).filter(Boolean)`: maximal runs of
non-whitespace characters. -/
def splitWsAux : List Char → List Char → List (List Char)
  | [], acc => if acc.isEmpty then [] else [acc.reverse]
  | c :: rest, acc =>
    if isJsSpace c then
      if acc.isEmpty then splitWsAux rest [] else acc.reverse :: splitWsAux rest []
    else splitWsAux rest (c :: acc)

/-- Embedding of `txt.split(/\s+/).filter(Boolean)`. -/
def splitWs (s : String) : List String := (splitWsAux s.toList []).map List.asString

/-- One word object of the whisper JSON output.  `start?`/`end?` are `none`
when the attribute is not a number (`typeof` guards in the source);
`word?`/`text?` are `none` when the attribute is null or undefined (`??`
defaults in the source). -/
structure JWord where
  start? : Option ℚ
  end? : Option ℚ
  word? : Option String
  text? : Option String

/-- One recognized segment of the whisper JSON output.  `words?` is `some`
exactly when `Array.isArray(seg.words)` holds; `text?` is `some` exactly
when `typeof seg.text === 'string'`. -/
structure JSeg where
  start? : Option ℚ
  end? : Option ℚ
  words? : Option (List JWord)
  text? : Option String

/-- Per-segment body of the JSON-parsing loop in `transcribeWordsWhisperCpp`:
verbatim word timings when the segment carries a word array, otherwise the
synthetic even-division fallback over the segment text. -/
def segWords (seg : JSeg) : List WordTiming :=
  let segStart := seg.start?.getD 0
  match seg.words? with
  | some ws =>
    ws.filterMap (fun w =>
      let s := w.start?.getD segStart
      let e := w.end?.getD (s + 3/10)
      let txt := jsTrim (w.word?.getD (w.text?.getD ""))
      if txt = "" then none else some ⟨s, e, txt⟩)
  | none =>
    match seg.text? with
    | some text =>
      let txt := jsTrim text
      let parts := splitWs txt
      let duration := max (1/100 : ℚ) (seg.end?.getD segStart - segStart)
      let slot := duration / ((max 1 parts.length : ℕ) : ℚ)
      synthWords segStart slot parts
    | none => []

/-- Stable insertion used to model `words.sort((a,b) => a.start - b.start)`:
an element is placed after all already-inserted elements whose start does
not exceed its own, which is the stable order ES2019 guarantees. -/
def insertByStart (x : WordTiming) : List WordTiming → List WordTiming
  | [] => [x]
  | y :: ys => if x.start < y.start then x :: y :: ys else y :: insertByStart x ys

/-- Stable sort by start time, modelling `Array.prototype.sort` with the
numeric comparator of `transcribeWordsWhisperCpp`. -/
def sortByStart (l : List WordTiming) : List WordTiming :=
  l.foldl (fun acc x => insertByStart x acc) []

/-- Pad a numeral on the left with zeros, `String(n).padStart(k, '0')`. -/
def padStartZ (k : Nat) (s : String) : String :=
  (List.replicate (k - s.length) '0').asString ++ s

/-- Truncation toward zero, the rounding JS uses for the `%` operator. -/
def ratTrunc (q : ℚ) : ℤ := if 0 ≤ q then ⌊q⌋ else ⌈q⌉

/-- JS remainder `a % n` (truncated division). -/
def jsMod (a n : ℚ) : ℚ := a - n * ratTrunc (a / n)

/-- JS `Math.round`: half-up rounding, `Math.round(x) = Math.floor(x + 0.5)`. -/
def jsRound (q : ℚ) : ℤ := ⌊q + 1/2⌋

/-- Timestamp formatter `toTime` of `buildAssFromWords`: `H:MM:SS.CC`. -/
def toTime (t : ℚ) : String :=
  let hh := ⌊t / 3600⌋
  let mm := ⌊jsMod t 3600 / 60⌋
  let ss := ⌊jsMod t 60⌋
  let cs := ⌊(t - (⌊t⌋ : ℚ)) * 100⌋
  padStartZ 1 (Int.repr hh) ++ ":" ++ padStartZ 2 (Int.repr mm) ++ ":" ++
    padStartZ 2 (Int.repr ss) ++ "." ++ padStartZ 2 (Int.repr cs)

/-- Styled-script header of `buildAssFromWords`.  The template literal in the
source opens with a bracket followed by a line break, so the emitted text
begins with the two characters `[` and `\n` before `Script Info]`. -/
def assHeader (vertical : Bool) : String :=
  let playResX : Nat := if vertical then 1080 else 1920
  let playResY : Nat := if vertical then 1920 else 1080
  let fontSize : Nat := if vertical then 48 else 42
  let marginV : Nat := if vertical then 80 else 60
  "[\nScript Info]\nScriptType: v4.00+\nCollisions: Normal\nPlayResX: " ++
    Nat.repr playResX ++ "\nPlayResY: " ++ Nat.repr playResY ++
    "\nScaledBorderAndShadow: yes\n\n[V4+ Styles]\nFormat: Name, Fontname, Fontsize, PrimaryColour, SecondaryColour, OutlineColour, BackColour, Bold, Italic, Underline, StrikeOut, ScaleX, ScaleY, Spacing, Angle, BorderStyle, Outline, Shadow, Alignment, MarginL, MarginR, MarginV, Encoding\nStyle: Default,Arial," ++
    Nat.repr fontSize ++
    ",&H00FFFFFF,&H00FFFFFF,&H000000,&H00000000,0,0,0,0,100,100,0,0,1,3,0,2,20,20," ++
    Nat.repr marginV ++
    ",1\n\n[Events]\nFormat: Layer, Start, End, Style, Name, MarginL, MarginR, MarginV, Effect, Text\n"

/-- Character budget of a display line, `buf.reduce((s,x) => s + x.text.length + 1, 0)`. -/
def lineChars (buf : List WordTiming) : Nat :=
  buf.foldl (fun s x => s + x.text.length + 1) 0

/-- Grouping loop of `buildAssFromWords`: flush the buffer on a pause gap
above 0.35s or on a character budget above 40, then append the word. -/
def groupLoop : List WordTiming → List WordTiming → ℚ → List (List WordTiming)
  | [], buf, _ => if buf.isEmpty then [] else [buf]
  | w :: ws, buf, lastEnd =>
    if (35 : ℚ)/100 < w.start - lastEnd ∨ 40 < lineChars buf then
      if buf.isEmpty then groupLoop ws [w] w.«end»
      else buf :: groupLoop ws [w] w.«end»
    else groupLoop ws (buf ++ [w]) w.«end»

/-- One display line of the styled script. -/
structure AssLine where
  start : ℚ
  «end» : ℚ
  words : List WordTiming

/-- Turn a flushed buffer into a display line, spanning from its first
word's start to its last word's end. -/
def toAssLine (buf : List WordTiming) : AssLine :=
  { start := ((buf.head?).map (fun w => w.start)).getD 0
    «end» := ((buf.getLast?).map (fun w => w.«end»)).getD 0
    words := buf }

/-- One `Dialogue:` event of the styled script, with per-word karaoke tags
whose centisecond duration is floored at 1.  The source also computes
`total = Math.max(0.01, line.end - line.start)` here but never uses it. -/
def assEvent (line : AssLine) : String :=
  let text := line.words.foldl (fun acc w =>
    let durCs : ℤ := max 1 (jsRound ((w.«end» - w.start) * 100))
    acc ++ "\x7b\\kf" ++ Int.repr durCs ++ "\x7d" ++ w.text ++ " ") ""
  "Dialogue: 0," ++ toTime line.start ++ "," ++ toTime (line.«end» + 1/100) ++
    ",Default,,0,0,0,,\x7b\\an2\x7d" ++ jsTrim text

/-- Join with newlines, `Array.prototype.join("\n")` on strings. -/
def joinStrNl : List String → String
  | [] => ""
  | [x] => x
  | x :: xs => x ++ "\n" ++ joinStrNl xs

/-- Embedding of `buildAssFromWords(words, opts)`; `vertical` is
`!!opts?.vertical`. -/
def buildAssFromWords (words : List WordTiming) (vertical : Bool) : String :=
  let header := assHeader vertical
  if words.isEmpty then header
  else
    let lines := (groupLoop words []
      (((words.head?).map (fun w => w.start)).getD 0)).map toAssLine
    let events := lines.map assEvent
    header ++ joinStrNl events ++ "\n"

/-- Filesystem view: the list of paths that currently exist. -/
abbrev FS := List String

/-- Embedding of `fs.existsSync`. -/
def fsExists (fs : FS) (p : String) : Bool := fs.contains p

/-- Embedding of `fs.unlinkSync` (removing a missing path is a no-op, which
also covers the `try { unlinkSync } catch {}` pattern). -/
def fsRemove (fs : FS) (p : String) : FS := fs.filter (fun q => q ≠ p)

/-- Embedding of a successful `fs.writeFileSync`. -/
def fsAdd (fs : FS) (p : String) : FS := p :: fs

/-- Observable filesystem actions of one pipeline function. -/
inductive FsEvent where
  | write (p : String)
  | execTool
  | unlink (p : String)
deriving DecidableEq

/-- Outcome of one external-process invocation (`execFileAsync`): either it
throws with a message or returns normally, and in both cases the filesystem
afterwards is whatever the tool left behind. -/
structure ExecOutcome where
  throws? : Option String
  fsAfter : FS

/-- Result of running one embedded pipeline function: the returned value or
thrown message, the final filesystem, and the trace of filesystem actions
performed, in order. -/
structure RunResult (α : Type) where
  result : Except String α
  fs : FS
  events : List FsEvent

/-- Substring occurrence on character lists. -/
def containsSubL : List Char → List Char → Bool
  | [], sub => sub.isEmpty
  | c :: rest, sub => sub.isPrefixOf (c :: rest) || containsSubL rest sub

/-- Embedding of JS `String.prototype.includes`. -/
def containsSub (s sub : String) : Bool := containsSubL s.toList sub.toList

/-- Embedding of JS `String.prototype.startsWith`. -/
def startsWithStr (s p : String) : Bool := p.toList.isPrefixOf s.toList

/-- Target orientation of `cutVideo`. -/
inductive VideoFormat where
  | horizontal
  | vertical
deriving DecidableEq

/-- Catch-block wrapper of `cutVideo`: translate an installation-absence
signature into the actionable FFmpeg message, otherwise wrap generically. -/
def cutCatch (msg : String) : String :=
  if containsSub msg "não é reconhecido" ∨ containsSub msg "not found" then
    "FFmpeg não está instalado. Por favor, instale FFmpeg: https://ffmpeg.org/download.html"
  else "Falha ao cortar vídeo: " ++ msg

/-- Embedding of `cutVideo` from `video-processor.ts`.  `timestamp` stands
for `Date.now()`, `exec` for the transcoder invocation outcome. -/
def cutVideo (fs : FS) (exec : ExecOutcome) (inputPath : String)
    (startTime endTime : ℚ) (format : VideoFormat)
    (outputDir timestamp : String) : RunResult String :=
  let outputPath := outputDir ++ "/cut_" ++ timestamp ++ ".mp4"
  if !fsExists fs inputPath then
    { result := .error (cutCatch "Arquivo de vídeo não encontrado"),
      fs := fs, events := [] }
  else
    let clipDuration := max 0 (endTime - startTime)
    if clipDuration ≤ 0 then
      { result := .error
          (cutCatch "Intervalo de corte inválido (fim deve ser maior que início)"),
        fs := fs, events := [] }
    else
      match exec.throws? with
      | some m =>
        { result := .error (cutCatch m), fs := exec.fsAfter, events := [.execTool] }
      | none =>
        if !fsExists exec.fsAfter outputPath then
          { result := .error (cutCatch "Vídeo cortado não foi criado"),
            fs := exec.fsAfter, events := [.execTool] }
        else
          { result := .ok outputPath, fs := exec.fsAfter, events := [.execTool] }

/-- Catch-block wrapper of `addSubtitlesToVideo`. -/
def addSubsCatch (msg : String) : String :=
  if containsSub msg "não é reconhecido" ∨ containsSub msg "not found" then
    "FFmpeg não está instalado. Por favor, instale FFmpeg: https://ffmpeg.org/download.html"
  else "Falha ao adicionar legendas: " ++ msg

/-- Path rewrite for the subtitle filter graph: forward slashes, then escape
colon, quote and comma (`replace(/\\/g,"/")` and the three escapes). -/
def escapeForFilter (p : String) : String :=
  let slashed := p.toList.map (fun c => if c = '\\' then '/' else c)
  (slashed.flatMap (fun c =>
    if c = ':' ∨ c = '\x27' ∨ c = ',' then ['\\', c] else [c])).asString

/-- Filter-graph string built by `addSubtitlesToVideo`. -/
def subtitlesFilter (srtPath : String) (useAss : Bool) : String :=
  let forceStyle :=
    if useAss then ""
    else ":force_style=\x27FontName=Arial,FontSize=28,PrimaryColour=&H00FFFFFF,OutlineColour=&H000000,BorderStyle=3,Outline=2,Shadow=0,BackColour=&H00000000\x27"
  "subtitles=filename=\x27" ++ escapeForFilter srtPath ++ "\x27:charenc=UTF-8" ++ forceStyle

/-- Embedding of `addSubtitlesToVideo` from `video-processor.ts`.
`keepSrtEnv` is `process.env.KEEP_SRT === '1'`; `timestamp` stands for
`Date.now()`; `exec` is the transcoder invocation outcome. -/
def addSubtitlesToVideo (fs : FS) (exec : ExecOutcome)
    (videoPath subtitlesContent outputDir timestamp : String)
    (keepSrtEnv : Bool) : RunResult String :=
  if subtitlesContent = "" ∨ jsTrim subtitlesContent = "" then
    { result := .ok videoPath, fs := fs, events := [] }
  else
    let useAss := startsWithStr (jsTrim subtitlesContent) "[Script Info]"
    let subExt := if useAss then ".ass" else ".srt"
    let srtPath := outputDir ++ "/subtitles_" ++ timestamp ++ subExt
    let fs1 := fsAdd fs srtPath
    let ev1 : List FsEvent := [.write srtPath]
    if !fsExists fs1 srtPath ∨ subtitlesContent = "" then
      { result := .error (addSubsCatch "Falha ao criar arquivo de legendas"),
        fs := fs1, events := ev1 }
    else
      let outputPath := outputDir ++ "/with_subtitles_" ++ timestamp ++ ".mp4"
      match exec.throws? with
      | some m =>
        { result := .error (addSubsCatch m), fs := exec.fsAfter,
          events := ev1 ++ [.execTool] }
      | none =>
        let fs2 := exec.fsAfter
        let st3 :=
          if fsExists fs2 videoPath ∧ videoPath ≠ outputPath then
            (fsRemove fs2 videoPath, [FsEvent.unlink videoPath])
          else (fs2, ([] : List FsEvent))
        let st4 :=
          if fsExists st3.1 srtPath ∧ keepSrtEnv = false then
            (fsRemove st3.1 srtPath, [FsEvent.unlink srtPath])
          else (st3.1, ([] : List FsEvent))
        if !fsExists st4.1 outputPath then
          { result := .error (addSubsCatch "Vídeo com legendas não foi criado"),
            fs := st4.1, events := ev1 ++ [.execTool] ++ st3.2 ++ st4.2 }
        else
          { result := .ok outputPath, fs := st4.1,
            events := ev1 ++ [.execTool] ++ st3.2 ++ st4.2 }

/-- Speech-engine configuration consumed by `transcribeWordsWhisperCpp`:
`WHISPER_CPP_PATH` resolution result and `WHISPER_CPP_MODEL`. -/
structure WhisperEnv where
  whisperBin? : Option String
  modelPath? : Option String

/-- Outcome of `JSON.parse` on the whisper JSON file. -/
inductive JsonParseOutcome where
  | failed
  | parsed (segs : List JSeg)

/-- Configuration check of the whisper functions:
`!whisperBin || !modelPath || !fs.existsSync(modelPath)` negated. -/
def whisperConfigured (env : WhisperEnv) (fs : FS) : Bool :=
  match env.whisperBin?, env.modelPath? with
  | some _, some m => fsExists fs m
  | _, _ => false

/-- Embedding of `transcribeWordsWhisperCpp` from the `subtitles` module.
The two `ExecOutcome`s are the audio-extraction and transcription
invocations; `parse` is the outcome of reading and parsing the JSON file.
The source has no try/finally: a throwing invocation propagates
immediately, skipping everything after it. -/
def transcribeWordsWhisperCpp (env : WhisperEnv) (fs : FS)
    (ffmpegRun whisperRun : ExecOutcome) (parse : JsonParseOutcome)
    (videoPath lang workdir timestamp : String) : RunResult (List WordTiming) :=
  if !whisperConfigured env fs then
    { result := .error "whisper.cpp não configurado. Defina WHISPER_CPP_PATH e WHISPER_CPP_MODEL",
      fs := fs, events := [] }
  else
    let base := workdir ++ "/aud_" ++ timestamp
    let wavPath := base ++ ".wav"
    let jsonPath := base ++ ".json"
    match ffmpegRun.throws? with
    | some m => { result := .error m, fs := ffmpegRun.fsAfter, events := [.execTool] }
    | none =>
      match whisperRun.throws? with
      | some m =>
        { result := .error m, fs := whisperRun.fsAfter,
          events := [.execTool, .execTool] }
      | none =>
        let fs2 := whisperRun.fsAfter
        let words :=
          if fsExists fs2 jsonPath then
            match parse with
            | .failed => []
            | .parsed segs => (segs.map segWords).flatten
          else []
        let fs3 := fsRemove fs2 wavPath
        let fs4 := fsRemove fs3 jsonPath
        { result := .ok (sortByStart words), fs := fs4,
          events := [.execTool, .execTool, .unlink wavPath, .unlink jsonPath] }

/-- Segment proposal record of `gemini.ts` (`VideoCutSegment`). -/
structure VideoCutSegment where
  startTime : ℚ
  endTime : ℚ
  description : String
deriving DecidableEq

/-- Proposal filter of `analyzeVideoForCuts`: keep cuts whose duration lies
in [60, 120] and whose end does not exceed the probed duration. -/
def validCuts (cuts : List VideoCutSegment) (duration : ℚ) : List VideoCutSegment :=
  cuts.filter (fun cut =>
    decide (60 ≤ cut.endTime - cut.startTime) &&
    decide (cut.endTime - cut.startTime ≤ 120) &&
    decide (cut.endTime ≤ duration))

/-- Fallback generator of `analyzeVideoForCuts`: `numCuts = floor(duration/90)`
windows `(i*90, min(i*90+90, duration))`, kept when at least 60s long. -/
def fallbackCuts (duration : ℚ) : List VideoCutSegment :=
  (List.range (⌊duration / 90⌋).toNat).filterMap (fun (i : ℕ) =>
    let start : ℚ := (i : ℚ) * 90
    let stop : ℚ := min (start + 90) duration
    if 60 ≤ stop - start then
      some { startTime := start, endTime := stop,
             description := "Segmento " ++ Nat.repr (i + 1) ++ " do vídeo" }
    else none)

/-- Post-oracle selection of `analyzeVideoForCuts`: the filtered proposals,
or the synthesized fallback when the filtered set is empty. -/
def selectCuts (cuts : List VideoCutSegment) (duration : ℚ) : List VideoCutSegment :=
  let valid := validCuts cuts duration
  if valid.isEmpty then fallbackCuts duration else valid

/-- Follows the spec's words for the fallback generator, for comparison with
`fallbackCuts`: fixed 90-second windows tiling the source from time 0, each
clipped to `sourceDuration`, discarding any trailing window shorter than
60 seconds.  Tiling the whole source needs `ceil(duration/90)` windows. -/
def specTilingFallback (duration : ℚ) : List (ℚ × ℚ) :=
  (List.range (⌈duration / 90⌉).toNat).filterMap (fun (i : ℕ) =>
    let start : ℚ := (i : ℚ) * 90
    let stop : ℚ := min (start + 90) duration
    if 60 ≤ stop - start then some (start, stop) else none)

deriving instance DecidableEq for Except

/-- Helper: a `filterMap` whose function always succeeds on the list is a `map`. -/
theorem list_filterMap_eq_map_of {α β : Type} (f : α → Option β) (g : α → β)
    (l : List α) (h : ∀ a ∈ l, f a = some (g a)) : l.filterMap f = l.map g := by
  induction l with
  | nil => rfl
  | cons a rest ih =>
    rw [List.filterMap_cons, h a (List.mem_cons_self a rest),
      List.map_cons, ih (fun b hb => h b (List.mem_cons_of_mem a hb))]

/-- C1: every segment returned by the post-oracle selection of
`analyzeVideoForCuts` — kept from the AI proposals or synthesized by the
fallback generator — has duration in [60, 120] and ends no later than the
probed source duration. -/
theorem selectCuts_segments_valid (cuts : List VideoCutSegment) (duration : ℚ)
    (seg : VideoCutSegment) (h : seg ∈ selectCuts cuts duration) :
    60 ≤ seg.endTime - seg.startTime ∧ seg.endTime - seg.startTime ≤ 120 ∧
      seg.endTime ≤ duration := by
  unfold selectCuts at h
  by_cases hv : (validCuts cuts duration).isEmpty
  · rw [if_pos hv] at h
    unfold fallbackCuts at h
    obtain ⟨i, _, hf⟩ := List.mem_filterMap.mp h
    simp only at hf
    split at hf
    · next hcond =>
      obtain rfl : _ = seg := Option.some.injEq _ _ ▸ hf
      refine ⟨hcond, ?_, min_le_right _ _⟩
      have hle : min ((i : ℚ) * 90 + 90) duration ≤ (i : ℚ) * 90 + 90 := min_le_left _ _
      simp only
      linarith
    · exact absurd hf (by simp)
  · rw [if_neg hv] at h
    have hmem := List.mem_filter.mp h
    have hc := hmem.2
    simp only [Bool.and_eq_true, decide_eq_true_eq] at hc
    exact ⟨hc.1.1, hc.1.2, hc.2⟩

/-- Witness for C1 at a concrete valid proposal. -/
theorem selectCuts_segments_valid_witness :
    (⟨0, 60, "x"⟩ : VideoCutSegment) ∈ selectCuts [⟨0, 60, "x"⟩] 100 ∧
      (60 ≤ (60 : ℚ) - 0 ∧ (60 : ℚ) - 0 ≤ 120 ∧ (60 : ℚ) ≤ 100) :=
  ⟨by with_unfolding_all decide,
   selectCuts_segments_valid [⟨0, 60, "x"⟩] 100 ⟨0, 60, "x"⟩ (by with_unfolding_all decide)⟩

/-- C2 counterexample: the code's fallback is not the spec-worded
"clip-and-drop-under-60s" tiling.  At `sourceDuration = 150` the code emits
only `(0,90)` while the spec's wording keeps the clipped trailing window
`(90,150)` (60 seconds long, hence not "shorter than 60 seconds"). -/
theorem fallback_differs_from_spec_tiling_at_150 :
    (selectCuts [] 150).map (fun c => (c.startTime, c.endTime)) = [(0, 90)] ∧
      specTilingFallback 150 = [(0, 90), (90, 150)] := by
  with_unfolding_all decide

/-- C2 amended: the fallback emits exactly `floor(duration/90)` windows,
each a full 90-second tile `(i*90, (i+1)*90)`; the clipping to
`sourceDuration` and the under-60-seconds filter never fire, so a trailing
partial window is never emitted.  For `sourceDuration = 305` and zero valid
proposals the output is exactly `(0,90), (90,180), (180,270)`. -/
theorem fallbackCuts_full_tiles (d : ℚ) :
    fallbackCuts d = (List.range (⌊d / 90⌋).toNat).map (fun i =>
      ⟨(i : ℚ) * 90, (i : ℚ) * 90 + 90,
        "Segmento " ++ Nat.repr (i + 1) ++ " do vídeo"⟩) ∧
    selectCuts [] 305 =
      [⟨0, 90, "Segmento 1 do vídeo"⟩, ⟨90, 180, "Segmento 2 do vídeo"⟩,
       ⟨180, 270, "Segmento 3 do vídeo"⟩] := by
  constructor
  · unfold fallbackCuts
    apply list_filterMap_eq_map_of
    intro i hi
    have hi2 : ((i : ℤ) + 1) ≤ ⌊d / 90⌋ := by
      have := Int.lt_toNat.mp (List.mem_range.mp hi)
      omega
    have hle : ((i : ℚ) + 1) * 90 ≤ d := by
      have h1 : (((i : ℤ) + 1 : ℤ) : ℚ) ≤ (⌊d / 90⌋ : ℚ) := by exact_mod_cast hi2
      have h2 : (⌊d / 90⌋ : ℚ) ≤ d / 90 := Int.floor_le _
      have h3 : ((i : ℚ) + 1) ≤ d / 90 := by push_cast at h1; linarith
      have h90 : (0 : ℚ) < 90 := by norm_num
      calc ((i : ℚ) + 1) * 90 ≤ d / 90 * 90 := by
            exact mul_le_mul_of_nonneg_right h3 (by norm_num)
        _ = d := by field_simp
    have hmin : min ((i : ℚ) * 90 + 90) d = (i : ℚ) * 90 + 90 :=
      min_eq_left (by linarith)
    simp only [hmin]
    rw [if_pos (by linarith)]
  · with_unfolding_all decide

/-- C4 (code evaluated at the failing input): `sanitizeSrt` is not
idempotent.  Normalizing a loose document yields a well-formed document,
but normalizing that already-normalized document returns the empty string:
the arrow rule `/–>|—>|->/ → "-->"` also matches the trailing `->` of the
canonical separator, turning `-->` into `--->` so that the time-range check
fails on the second pass. -/
theorem sanitizeSrt_not_idempotent_eval :
    sanitizeSrt "00:00:00,000 -> 00:00:02,500\nOla" =
      "1\n00:00:00,000 --> 00:00:02,500\nOla\n" ∧
    sanitizeSrt "1\n00:00:00,000 --> 00:00:02,500\nOla\n" = "" ∧
    sanitizeSrt (sanitizeSrt "00:00:00,000 -> 00:00:02,500\nOla") ≠
      sanitizeSrt "00:00:00,000 -> 00:00:02,500\nOla" := by
  refine ⟨by decide, by decide, by decide⟩

/-- C5: when no valid time-range pattern survives the normalisation phase,
`sanitizeSrt` returns the empty string, never a partial document. -/
theorem sanitizeSrt_empty_of_no_range (s : String)
    (h : containsRangeL (normalizeSrtChars s.toList) = false) :
    sanitizeSrt s = "" := by
  unfold sanitizeSrt sanitizeSrtL
  by_cases he : s.toList.isEmpty
  · rw [if_pos he]; rfl
  · rw [if_neg he]
    simp only [h]
    rfl

/-- Witness for C5 at a text blob with no time range. -/
theorem sanitizeSrt_empty_of_no_range_witness :
    containsRangeL (normalizeSrtChars ("hello" : String).toList) = false ∧
      sanitizeSrt "hello" = "" :=
  ⟨by decide, sanitizeSrt_empty_of_no_range "hello" (by decide)⟩

/-- C9: with empty or all-whitespace subtitle text, `addSubtitlesToVideo`
returns the input path unchanged, leaves the filesystem untouched and
performs no filesystem action at all. -/
theorem addSubtitles_blank_noop (fs : FS) (exec : ExecOutcome)
    (videoPath subtitlesContent outputDir timestamp : String) (keepSrtEnv : Bool)
    (h : jsTrim subtitlesContent = "") :
    (addSubtitlesToVideo fs exec videoPath subtitlesContent outputDir timestamp
        keepSrtEnv).result = .ok videoPath ∧
    (addSubtitlesToVideo fs exec videoPath subtitlesContent outputDir timestamp
        keepSrtEnv).fs = fs ∧
    (addSubtitlesToVideo fs exec videoPath subtitlesContent outputDir timestamp
        keepSrtEnv).events = [] := by
  unfold addSubtitlesToVideo
  rw [if_pos (Or.inr h)]
  exact ⟨rfl, rfl, rfl⟩

/-- Witness for C9 at all-whitespace subtitle text. -/
theorem addSubtitles_blank_noop_witness :
    jsTrim "  \n " = "" ∧
    (addSubtitlesToVideo ["v.mp4"] ⟨none, []⟩ "v.mp4" "  \n " "d" "1" false).result =
      .ok "v.mp4" ∧
    (addSubtitlesToVideo ["v.mp4"] ⟨none, []⟩ "v.mp4" "  \n " "d" "1" false).fs =
      ["v.mp4"] ∧
    (addSubtitlesToVideo ["v.mp4"] ⟨none, []⟩ "v.mp4" "  \n " "d" "1" false).events = [] :=
  ⟨by decide,
   (addSubtitles_blank_noop ["v.mp4"] ⟨none, []⟩ "v.mp4" "  \n " "d" "1" false
     (by decide)).1,
   (addSubtitles_blank_noop ["v.mp4"] ⟨none, []⟩ "v.mp4" "  \n " "d" "1" false
     (by decide)).2.1,
   (addSubtitles_blank_noop ["v.mp4"] ⟨none, []⟩ "v.mp4" "  \n " "d" "1" false
     (by decide)).2.2⟩


/-- C3: for a valid range over an existing source, `cutVideo` either throws
or returns a path that exists on the final filesystem — the postcondition
check after the transcoder invocation rules out a silently missing output
even when the process reported success. -/
theorem cutVideo_ok_implies_output_exists (fs : FS) (exec : ExecOutcome)
    (inputPath : String) (startTime endTime : ℚ) (format : VideoFormat)
    (outputDir timestamp p : String)
    (hsrc : fsExists fs inputPath = true) (hrange : startTime < endTime)
    (h : (cutVideo fs exec inputPath startTime endTime format outputDir
        timestamp).result = .ok p) :
    fsExists (cutVideo fs exec inputPath startTime endTime format outputDir
        timestamp).fs p = true := by
  unfold cutVideo at h ⊢
  simp only [hsrc, Bool.not_true, Bool.false_eq_true, if_false] at h ⊢
  by_cases hd : max 0 (endTime - startTime) ≤ 0
  · simp only [if_pos hd] at h
    exact Except.noConfusion h
  · simp only [if_neg hd] at h ⊢
    split at h
    · exact Except.noConfusion h
    · split at h
      · exact Except.noConfusion h
      · next hout =>
        simp only [Bool.not_eq_true', Bool.not_eq_false] at hout
        simp only [hout, Bool.not_true, Bool.false_eq_true, if_false]
        obtain rfl : outputDir ++ "/cut_" ++ timestamp ++ ".mp4" = p := by
          simpa using h
        exact hout

/-- Witness for C3 at a concrete successful cut. -/
theorem cutVideo_ok_implies_output_exists_witness :
    fsExists ["in.mp4"] "in.mp4" = true ∧ (0 : ℚ) < 90 ∧
    (cutVideo ["in.mp4"] ⟨none, ["d/cut_1.mp4"]⟩ "in.mp4" 0 90 .vertical "d" "1").result =
      .ok "d/cut_1.mp4" ∧
    fsExists (cutVideo ["in.mp4"] ⟨none, ["d/cut_1.mp4"]⟩ "in.mp4" 0 90 .vertical
      "d" "1").fs "d/cut_1.mp4" = true :=
  ⟨by decide, by with_unfolding_all decide, by with_unfolding_all decide,
   cutVideo_ok_implies_output_exists ["in.mp4"] ⟨none, ["d/cut_1.mp4"]⟩ "in.mp4" 0 90
     .vertical "d" "1" "d/cut_1.mp4" (by decide) (by with_unfolding_all decide)
     (by with_unfolding_all decide)⟩

set_option maxRecDepth 16384 in
/-- C8 (code evaluated at the failing input): the script built by
`buildAssFromWords` for a non-empty word list is NOT detected as the styled
dialect.  Its header literally opens with a bracket followed by a line
break, so the trimmed payload begins with the two characters `[`, `\n`, the
`startsWith "[Script Info]"` sniff in `addSubtitlesToVideo` is false, and
the subtitle temp file is written with the `.srt` extension (hence with
force_style), not `.ass`. -/
theorem buildAss_not_detected_as_styled :
    startsWithStr (jsTrim (buildAssFromWords [⟨0, 1, "ola"⟩] false)) "[Script Info]" =
      false ∧
    (jsTrim (buildAssFromWords [⟨0, 1, "ola"⟩] false)).toList.take 2 = ['[', '\n'] ∧
    (addSubtitlesToVideo [] ⟨none, []⟩ "v.mp4" (buildAssFromWords [⟨0, 1, "ola"⟩] false)
        "d" "1" false).events.head? = some (.write "d/subtitles_1.srt") := by
  refine ⟨by with_unfolding_all decide, by with_unfolding_all decide,
    by with_unfolding_all decide⟩

/-- Helper: a removed path no longer exists. -/
theorem fsExists_fsRemove_self (fs : FS) (p : String) :
    fsExists (fsRemove fs p) p = false := by
  have hnm : p ∉ fsRemove fs p := fun hc => by
    have := List.of_mem_filter hc
    simp at this
  simpa [fsExists] using hnm

/-- Helper: removing one path cannot make another path appear. -/
theorem fsExists_fsRemove_of_not (fs : FS) (p q : String)
    (h : fsExists fs p = false) : fsExists (fsRemove fs q) p = false := by
  have hm : p ∉ fs := by simpa [fsExists] using h
  have hnm : p ∉ fsRemove fs q := fun hc => hm (List.mem_of_mem_filter hc)
  simpa [fsExists] using hnm

/-- C7 counterexample: a run whose transcription invocation throws performs
no cleanup at all — no unlink event occurs and the temporary audio file is
left on disk, while the function itself fails. -/
theorem transcribe_no_cleanup_on_throw :
    (transcribeWordsWhisperCpp ⟨some "w", some "m"⟩ ["m"]
        ⟨none, ["m", "wd/aud_1.wav"]⟩ ⟨some "boom", ["m", "wd/aud_1.wav"]⟩
        .failed "v.mp4" "pt" "wd" "1").result = .error "boom" ∧
    (transcribeWordsWhisperCpp ⟨some "w", some "m"⟩ ["m"]
        ⟨none, ["m", "wd/aud_1.wav"]⟩ ⟨some "boom", ["m", "wd/aud_1.wav"]⟩
        .failed "v.mp4" "pt" "wd" "1").events = [.execTool, .execTool] ∧
    (FsEvent.unlink "wd/aud_1.wav" ∉
      (transcribeWordsWhisperCpp ⟨some "w", some "m"⟩ ["m"]
        ⟨none, ["m", "wd/aud_1.wav"]⟩ ⟨some "boom", ["m", "wd/aud_1.wav"]⟩
        .failed "v.mp4" "pt" "wd" "1").events) ∧
    fsExists (transcribeWordsWhisperCpp ⟨some "w", some "m"⟩ ["m"]
        ⟨none, ["m", "wd/aud_1.wav"]⟩ ⟨some "boom", ["m", "wd/aud_1.wav"]⟩
        .failed "v.mp4" "pt" "wd" "1").fs "wd/aud_1.wav" = true := by
  refine ⟨by decide, by decide, by decide, by decide⟩

/-- C7 amended: cleanup is guaranteed only on runs where both external
invocations return without throwing; on every such run — whatever the JSON
parse outcome — both temp files receive an unlink attempt, in order, and
neither exists afterwards. -/
theorem transcribe_cleanup_when_no_throw (env : WhisperEnv) (fs : FS)
    (ffmpegRun whisperRun : ExecOutcome) (parse : JsonParseOutcome)
    (videoPath lang workdir timestamp : String)
    (hconf : whisperConfigured env fs = true)
    (h1 : ffmpegRun.throws? = none) (h2 : whisperRun.throws? = none) :
    (transcribeWordsWhisperCpp env fs ffmpegRun whisperRun parse videoPath lang
        workdir timestamp).events =
      [.execTool, .execTool, .unlink (workdir ++ "/aud_" ++ timestamp ++ ".wav"),
       .unlink (workdir ++ "/aud_" ++ timestamp ++ ".json")] ∧
    fsExists (transcribeWordsWhisperCpp env fs ffmpegRun whisperRun parse videoPath
        lang workdir timestamp).fs (workdir ++ "/aud_" ++ timestamp ++ ".wav") = false ∧
    fsExists (transcribeWordsWhisperCpp env fs ffmpegRun whisperRun parse videoPath
        lang workdir timestamp).fs (workdir ++ "/aud_" ++ timestamp ++ ".json") = false := by
  unfold transcribeWordsWhisperCpp
  simp only [hconf, Bool.not_true, Bool.false_eq_true, if_false, h1, h2]
  exact ⟨trivial,
    fsExists_fsRemove_of_not _ _ _ (fsExists_fsRemove_self _ _),
    fsExists_fsRemove_self _ _⟩

/-- Witness for the amended C7 on a concrete non-throwing run. -/
theorem transcribe_cleanup_when_no_throw_witness :
    whisperConfigured ⟨some "w", some "m"⟩ ["m"] = true ∧
    (transcribeWordsWhisperCpp ⟨some "w", some "m"⟩ ["m"]
        ⟨none, ["m", "wd/aud_1.wav"]⟩ ⟨none, ["m", "wd/aud_1.wav", "wd/aud_1.json"]⟩
        .failed "v.mp4" "pt" "wd" "1").events =
      [.execTool, .execTool, .unlink "wd/aud_1.wav", .unlink "wd/aud_1.json"] ∧
    fsExists (transcribeWordsWhisperCpp ⟨some "w", some "m"⟩ ["m"]
        ⟨none, ["m", "wd/aud_1.wav"]⟩ ⟨none, ["m", "wd/aud_1.wav", "wd/aud_1.json"]⟩
        .failed "v.mp4" "pt" "wd" "1").fs "wd/aud_1.wav" = false ∧
    fsExists (transcribeWordsWhisperCpp ⟨some "w", some "m"⟩ ["m"]
        ⟨none, ["m", "wd/aud_1.wav"]⟩ ⟨none, ["m", "wd/aud_1.wav", "wd/aud_1.json"]⟩
        .failed "v.mp4" "pt" "wd" "1").fs "wd/aud_1.json" = false :=
  ⟨by decide,
   (transcribe_cleanup_when_no_throw ⟨some "w", some "m"⟩ ["m"]
     ⟨none, ["m", "wd/aud_1.wav"]⟩ ⟨none, ["m", "wd/aud_1.wav", "wd/aud_1.json"]⟩
     .failed "v.mp4" "pt" "wd" "1" (by decide) rfl rfl).1,
   (transcribe_cleanup_when_no_throw ⟨some "w", some "m"⟩ ["m"]
     ⟨none, ["m", "wd/aud_1.wav"]⟩ ⟨none, ["m", "wd/aud_1.wav", "wd/aud_1.json"]⟩
     .failed "v.mp4" "pt" "wd" "1" (by decide) rfl rfl).2.1,
   (transcribe_cleanup_when_no_throw ⟨some "w", some "m"⟩ ["m"]
     ⟨none, ["m", "wd/aud_1.wav"]⟩ ⟨none, ["m", "wd/aud_1.wav", "wd/aud_1.json"]⟩
     .failed "v.mp4" "pt" "wd" "1" (by decide) rfl rfl).2.2⟩

/-- Helper: a just-written path exists. -/
theorem fsExists_fsAdd_self (fs : FS) (p : String) :
    fsExists (fsAdd fs p) p = true := by
  simp [fsExists, fsAdd]

/-- C10: when the transcoder invocation returns without throwing, the input
differs from the computed output path, the input still exists and the output
does not, `addSubtitlesToVideo` deletes the input video and only then hits
the output-existence postcondition and throws — so on this failure path the
pre-burn-in input has already been removed. -/
theorem addSubtitles_input_deleted_on_missing_output (fs : FS) (exec : ExecOutcome)
    (videoPath subtitlesContent outputDir timestamp : String) (keepSrtEnv : Bool)
    (hsub : jsTrim subtitlesContent ≠ "")
    (hexec : exec.throws? = none)
    (hne : videoPath ≠ outputDir ++ "/with_subtitles_" ++ timestamp ++ ".mp4")
    (hvid : fsExists exec.fsAfter videoPath = true)
    (hout : fsExists exec.fsAfter
      (outputDir ++ "/with_subtitles_" ++ timestamp ++ ".mp4") = false) :
    (addSubtitlesToVideo fs exec videoPath subtitlesContent outputDir timestamp
        keepSrtEnv).result =
      .error (addSubsCatch "Vídeo com legendas não foi criado") ∧
    fsExists (addSubtitlesToVideo fs exec videoPath subtitlesContent outputDir
        timestamp keepSrtEnv).fs videoPath = false ∧
    FsEvent.unlink videoPath ∈ (addSubtitlesToVideo fs exec videoPath
        subtitlesContent outputDir timestamp keepSrtEnv).events := by
  have hnz : subtitlesContent ≠ "" := by
    intro hz
    exact hsub (by rw [hz]; rfl)
  unfold addSubtitlesToVideo
  rw [if_neg (by push_neg; exact ⟨hnz, hsub⟩)]
  simp only [hexec]
  rw [if_neg (by
    push_neg
    refine ⟨?_, hnz⟩
    simp [fsExists_fsAdd_self])]
  set outPath := outputDir ++ "/with_subtitles_" ++ timestamp ++ ".mp4" with houtp
  set srtPath := outputDir ++ "/subtitles_" ++ timestamp ++
    (if startsWithStr (jsTrim subtitlesContent) "[Script Info]" = true
      then ".ass" else ".srt") with hsrt
  have h3 : fsExists exec.fsAfter videoPath = true ∧ videoPath ≠ outPath := ⟨hvid, hne⟩
  rw [if_pos h3]
  dsimp only
  by_cases h4 : fsExists (fsRemove exec.fsAfter videoPath) srtPath = true ∧
    keepSrtEnv = false
  · rw [if_pos h4]
    dsimp only
    have hmiss : fsExists (fsRemove (fsRemove exec.fsAfter videoPath) srtPath)
        outPath = false :=
      fsExists_fsRemove_of_not _ _ _ (fsExists_fsRemove_of_not _ _ _ hout)
    rw [if_pos (by simp [hmiss])]
    refine ⟨rfl, ?_, by simp⟩
    exact fsExists_fsRemove_of_not _ _ _ (fsExists_fsRemove_self _ _)
  · rw [if_neg h4]
    dsimp only
    have hmiss : fsExists (fsRemove exec.fsAfter videoPath) outPath = false :=
      fsExists_fsRemove_of_not _ _ _ hout
    rw [if_pos (by simp [hmiss])]
    refine ⟨rfl, ?_, by simp⟩
    exact fsExists_fsRemove_self _ _

/-- Witness for C10 on a concrete run with a missing output. -/
theorem addSubtitles_input_deleted_on_missing_output_witness :
    jsTrim "hello" ≠ "" ∧
    (addSubtitlesToVideo ["v.mp4"] ⟨none, ["v.mp4", "d/subtitles_1.srt"]⟩ "v.mp4"
        "hello" "d" "1" false).result =
      .error (addSubsCatch "Vídeo com legendas não foi criado") ∧
    fsExists (addSubtitlesToVideo ["v.mp4"] ⟨none, ["v.mp4", "d/subtitles_1.srt"]⟩
        "v.mp4" "hello" "d" "1" false).fs "v.mp4" = false ∧
    FsEvent.unlink "v.mp4" ∈ (addSubtitlesToVideo ["v.mp4"]
        ⟨none, ["v.mp4", "d/subtitles_1.srt"]⟩ "v.mp4" "hello" "d" "1" false).events :=
  ⟨by decide,
   (addSubtitles_input_deleted_on_missing_output ["v.mp4"]
     ⟨none, ["v.mp4", "d/subtitles_1.srt"]⟩ "v.mp4" "hello" "d" "1" false
     (by decide) rfl (by decide) (by decide) (by decide)).1,
   (addSubtitles_input_deleted_on_missing_output ["v.mp4"]
     ⟨none, ["v.mp4", "d/subtitles_1.srt"]⟩ "v.mp4" "hello" "d" "1" false
     (by decide) rfl (by decide) (by decide) (by decide)).2.1,
   (addSubtitles_input_deleted_on_missing_output ["v.mp4"]
     ⟨none, ["v.mp4", "d/subtitles_1.srt"]⟩ "v.mp4" "hello" "d" "1" false
     (by decide) rfl (by decide) (by decide) (by decide)).2.2⟩

/-- Helper: length of the synthetic word list. -/
theorem synthWords_length (t slot : ℚ) (ps : List String) :
    (synthWords t slot ps).length = ps.length := by
  induction ps generalizing t with
  | nil => rfl
  | cons p rest ih => simp [synthWords, ih]

/-- Helper: closed form of the synthetic word at index `i`. -/
theorem synthWords_getElem (t slot : ℚ) (ps : List String) (i : ℕ) :
    (synthWords t slot ps)[i]? = (ps[i]?).map (fun p =>
      ⟨t + (i : ℚ) * slot, t + ((i : ℚ) + 1) * slot, p⟩) := by
  induction ps generalizing t i with
  | nil => simp [synthWords]
  | cons p rest ih =>
    cases i with
    | zero =>
      simp only [synthWords, List.getElem?_cons_zero, Option.map_some']
      have h1 : t = t + ((0 : ℕ) : ℚ) * slot := by push_cast; ring
      have h2 : t + slot = t + (((0 : ℕ) : ℚ) + 1) * slot := by push_cast; ring
      rw [← h1, ← h2]
    | succ n =>
      simp only [synthWords, List.getElem?_cons_succ]
      rw [ih]
      cases hn : rest[n]? with
      | none => rfl
      | some p2 =>
        simp only [Option.map_some', Option.some.injEq, WordTiming.mk.injEq]
        refine ⟨by push_cast; ring, by push_cast; ring, trivial⟩

/-- Helper: `splitWsAux` with a non-empty accumulator yields a non-empty list. -/
theorem splitWsAux_ne_nil (l acc : List Char) (h : acc ≠ []) :
    splitWsAux l acc ≠ [] := by
  induction l generalizing acc with
  | nil => simp [splitWsAux, h]
  | cons c rest ih =>
    by_cases hc : isJsSpace c = true
    · simp only [splitWsAux, hc, if_true]
      rw [if_neg (by simpa using h)]
      simp
    · simp only [splitWsAux, hc, if_false]
      exact ih (c :: acc) (by simp)

/-- Helper: the head of a `dropWhile` residue falsifies the predicate. -/
theorem dropWhile_head_false (p : Char → Bool) (l : List Char) (c : Char)
    (rest : List Char) (h : l.dropWhile p = c :: rest) : p c = false := by
  induction l with
  | nil => cases h
  | cons a tl ih =>
    simp only [List.dropWhile_cons] at h
    by_cases ha : p a = true
    · rw [if_pos ha] at h; exact ih h
    · rw [if_neg ha] at h
      injection h with h1 h2
      subst h1
      simpa using ha

/-- Helper: a non-empty trimmed string starts with a non-space character. -/
theorem jsTrim_toList_head (s : String) (h : jsTrim s ≠ "") :
    ∃ c rest, (jsTrim s).toList = c :: rest ∧ isJsSpace c = false := by
  cases hx : jsTrimL s.toList with
  | nil =>
    exact absurd (show jsTrim s = "" by unfold jsTrim; rw [hx]; rfl) h
  | cons c rest =>
    refine ⟨c, rest, hx, ?_⟩
    have hpre : jsTrimL s.toList <+: s.toList.dropWhile isJsSpace :=
      List.rdropWhile_prefix isJsSpace (List.dropWhile isJsSpace s.toList)
    obtain ⟨u, hu⟩ := hpre
    rw [hx] at hu
    exact dropWhile_head_false isJsSpace s.toList c (rest ++ u) hu.symm

/-- Helper: splitting a non-empty trimmed string yields at least one word. -/
theorem splitWs_jsTrim_ne_nil (text : String) (h : jsTrim text ≠ "") :
    splitWs (jsTrim text) ≠ [] := by
  obtain ⟨c, rest, hx, hc⟩ := jsTrim_toList_head text h
  unfold splitWs
  rw [hx]
  simp only [splitWsAux, hc, if_false]
  rw [Ne, List.map_eq_nil_iff]
  exact splitWsAux_ne_nil rest [c] (by simp)

/-- C6: on a recognized segment without word-level timestamps but with
non-empty text, the transcription parser synthesizes per-word timings by
even division: with `slot = max(0.01, segEnd - segStart) / wordCount`, word
`i` spans `[segStart + i*slot, segStart + (i+1)*slot]`, so consecutive
synthesized words abut and start times strictly increase. -/
theorem segWords_even_division (seg : JSeg) (text : String)
    (hw : seg.words? = none) (ht : seg.text? = some text)
    (hne : jsTrim text ≠ "") :
    ∃ slot : ℚ,
      slot = max (1/100 : ℚ)
          (seg.end?.getD (seg.start?.getD 0) - seg.start?.getD 0) /
          ((splitWs (jsTrim text)).length : ℚ) ∧
      0 < slot ∧
      (segWords seg).length = (splitWs (jsTrim text)).length ∧
      (∀ i : ℕ, (segWords seg)[i]? = ((splitWs (jsTrim text))[i]?).map
        (fun p => ⟨seg.start?.getD 0 + (i : ℚ) * slot,
                   seg.start?.getD 0 + ((i : ℚ) + 1) * slot, p⟩)) ∧
      (∀ (i : ℕ) (w w' : WordTiming), (segWords seg)[i]? = some w →
        (segWords seg)[i + 1]? = some w' →
        w.«end» = w'.start ∧ w.start < w'.start) := by
  have hpart := splitWs_jsTrim_ne_nil text hne
  have hlen : 0 < (splitWs (jsTrim text)).length := List.length_pos.mpr hpart
  set parts := splitWs (jsTrim text) with hparts
  set slot : ℚ := max (1/100 : ℚ)
    (seg.end?.getD (seg.start?.getD 0) - seg.start?.getD 0) / ((parts).length : ℚ)
    with hslot
  have hmax : (max 1 parts.length : ℕ) = parts.length := Nat.max_eq_right hlen
  have hseg : segWords seg = synthWords (seg.start?.getD 0) slot parts := by
    unfold segWords
    rw [hw, ht]
    simp only [← hparts, hmax, ← hslot]
  have hpos : 0 < slot := by
    rw [hslot]
    apply div_pos
    · exact lt_of_lt_of_le (by norm_num) (le_max_left _ _)
    · exact_mod_cast hlen
  refine ⟨slot, rfl, hpos, ?_, ?_, ?_⟩
  · rw [hseg, synthWords_length]
  · intro i
    rw [hseg, synthWords_getElem]
  · intro i w w' h1 h2
    rw [hseg, synthWords_getElem] at h1 h2
    cases hp1 : parts[i]? with
    | none => rw [hp1] at h1; cases h1
    | some p1 =>
      rw [hp1] at h1
      cases hp2 : parts[i + 1]? with
      | none => rw [hp2] at h2; cases h2
      | some p2 =>
        rw [hp2] at h2
        simp only [Option.map_some', Option.some.injEq] at h1 h2
        subst h1; subst h2
        constructor
        · show seg.start?.getD 0 + ((i : ℚ) + 1) * slot =
            seg.start?.getD 0 + ((i + 1 : ℕ) : ℚ) * slot
          push_cast
          ring
        · show seg.start?.getD 0 + (i : ℚ) * slot <
            seg.start?.getD 0 + ((i + 1 : ℕ) : ℚ) * slot
          push_cast
          nlinarith [hpos]

/-- Witness for C6 on a concrete three-word segment. -/
theorem segWords_even_division_witness :
    (⟨some 2, some 4, none, some "ola mundo bom"⟩ : JSeg).words? = none ∧
    (⟨some 2, some 4, none, some "ola mundo bom"⟩ : JSeg).text? =
      some "ola mundo bom" ∧
    jsTrim "ola mundo bom" ≠ "" ∧
    (∃ slot : ℚ,
      slot = max (1/100 : ℚ)
          ((⟨some 2, some 4, none, some "ola mundo bom"⟩ : JSeg).end?.getD
            ((⟨some 2, some 4, none, some "ola mundo bom"⟩ : JSeg).start?.getD 0) -
           (⟨some 2, some 4, none, some "ola mundo bom"⟩ : JSeg).start?.getD 0) /
          ((splitWs (jsTrim "ola mundo bom")).length : ℚ) ∧
      0 < slot ∧
      (segWords ⟨some 2, some 4, none, some "ola mundo bom"⟩).length =
        (splitWs (jsTrim "ola mundo bom")).length ∧
      (∀ i : ℕ, (segWords ⟨some 2, some 4, none, some "ola mundo bom"⟩)[i]? =
        ((splitWs (jsTrim "ola mundo bom"))[i]?).map
        (fun p => ⟨(⟨some 2, some 4, none, some "ola mundo bom"⟩ : JSeg).start?.getD 0 +
                     (i : ℚ) * slot,
                   (⟨some 2, some 4, none, some "ola mundo bom"⟩ : JSeg).start?.getD 0 +
                     ((i : ℚ) + 1) * slot, p⟩)) ∧
      (∀ (i : ℕ) (w w' : WordTiming),
        (segWords ⟨some 2, some 4, none, some "ola mundo bom"⟩)[i]? = some w →
        (segWords ⟨some 2, some 4, none, some "ola mundo bom"⟩)[i + 1]? = some w' →
        w.«end» = w'.start ∧ w.start < w'.start)) :=
  ⟨rfl, rfl, by decide,
   segWords_even_division ⟨some 2, some 4, none, some "ola mundo bom"⟩
     "ola mundo bom" rfl rfl (by decide)⟩
